import Mathlib

/-!
Verification of the reactive dataflow core of the poly-runtime repository.

The definitions below are a shallow embedding of the TypeScript sources:

* `src/indexSpecifier.ts` — the index specifier algebra (`All`, `None`,
  `Indices`), with `indexEmpty`, `indexHas`, `normalizeIndexSpecifier` and
  `mergeIndexSpecifiers`.
* `src/channel.ts` — the channel graph: `DataChannel` (source) with its data
  setter, `AutomaticChannel` (derived) with its lazy `data` getter,
  `Channel.markDirty`, and the `AutomaticChannel` constructor with its
  `NoIncomingChannelsError`.
* `src/channelFn.ts` — `List.map` (its connector, compute and per-index
  update function), `List.insert`, and `unravelData`.
* `src/util.ts` — `range`.

Machine values: JavaScript keys are modelled as `Key` (integer index or
string name); JavaScript object-property coercion of a key is `keyToProp`.
Mutable channel state is passed explicitly; user compute functions that can
throw are modelled with `Except`.
-/

/-- A key that can be used to index a JavaScript object: an integer index or
a string name.  (Symbols exist in the source type but are never produced by
the core.) -/
inductive Key where
| num : Nat → Key
| str : String → Key
deriving DecidableEq

/-- The property name a `Key` coerces to when used to index a JavaScript
object, as happens in the `merged[index]` bookkeeping map inside
`mergeIndexSpecifiers`: numbers become their decimal text. -/
def keyToProp : Key → String
| Key.num n => toString n
| Key.str s => s

/-- The tagged sum of index specifiers from `src/indexSpecifier.ts`:
`All` (a full collection), `None` (an empty collection) and `Indices`
(a collection of specified keys). -/
inductive IndexSpecifier where
| all : IndexSpecifier
| none : IndexSpecifier
| indices : List Key → IndexSpecifier
deriving DecidableEq

/-- The constant `indexAll` from the source. -/
def indexAll : IndexSpecifier := IndexSpecifier.all

/-- The constant `indexNone` from the source. -/
def indexNone : IndexSpecifier := IndexSpecifier.none

/-- The utility `indices(keys)` from the source. -/
def indices (ks : List Key) : IndexSpecifier := IndexSpecifier.indices ks

/-- Source function `indexEmpty`: `None` is empty, `Indices` is empty iff
its key list has length zero, everything else is not empty. -/
def indexEmpty : IndexSpecifier → Bool
| IndexSpecifier.none => true
| IndexSpecifier.indices l => l.length == 0
| IndexSpecifier.all => false

/-- Source function `indexHas`: `All` has everything, `None` has nothing,
`Indices` tests membership (strict equality) on the key list. -/
def indexHas (indexSpecifier : IndexSpecifier) (index : Key) : Bool :=
match indexSpecifier with
| IndexSpecifier.all => true
| IndexSpecifier.none => false
| IndexSpecifier.indices l => l.contains index

/-- Source function `normalizeIndexSpecifier`: an empty specifier becomes
`indexNone`, any other specifier is returned unchanged. -/
def normalizeIndexSpecifier (indexSpecifier : IndexSpecifier) : IndexSpecifier :=
if indexEmpty indexSpecifier then indexNone else indexSpecifier

/-- The property names an empty object literal `{}` already answers for
through its prototype chain: the own property names of `Object.prototype`.
Reading any of them on `{}` yields a function (or, for `__proto__`,
`Object.prototype` itself) — in every case a truthy value. -/
def objectPrototypeProps : List String :=
  ["constructor", "hasOwnProperty", "isPrototypeOf", "propertyIsEnumerable",
   "toLocaleString", "toString", "valueOf", "__defineGetter__", "__defineSetter__",
   "__lookupGetter__", "__lookupSetter__", "__proto__"]

/-- The key-merging loop of `mergeIndexSpecifiers`.  The source iterates the
two key lists in order, pushing a key onto `newIndices` only if
`!merged[index]` holds; since `merged` is the JavaScript object literal
`{}`, a key is looked up and recorded under its property-name coercion
`keyToProp`, and the lookup reads through the prototype chain — a key whose
property name is an `Object.prototype` member reads truthy from the start
and is never pushed.  `seen` is the set of property names that currently
read truthy; the caller starts it at `objectPrototypeProps`. -/
def mergeKeysGo (seen : List String) : List Key → List Key
| [] => []
| k :: ks =>
  if keyToProp k ∈ seen then mergeKeysGo seen ks
  else k :: mergeKeysGo (keyToProp k :: seen) ks

/-- Source function `mergeIndexSpecifiers`: if either specifier is `All`,
return `indexAll`; if one is `None`, return the other normalized; otherwise
both are `Indices` and the concatenated key lists are deduplicated by the
`merged` object — whose prototype chain makes `Object.prototype` member
names read as already merged — then normalized. -/
def mergeIndexSpecifiers (baseSpecifier newSpecifier : IndexSpecifier) : IndexSpecifier :=
match baseSpecifier, newSpecifier with
| IndexSpecifier.all, _ => indexAll
| _, IndexSpecifier.all => indexAll
| IndexSpecifier.none, n => normalizeIndexSpecifier n
| b, IndexSpecifier.none => normalizeIndexSpecifier b
| IndexSpecifier.indices la, IndexSpecifier.indices lb =>
    normalizeIndexSpecifier (indices (mergeKeysGo objectPrototypeProps (la ++ lb)))

/-- Source function `range(inclusiveStart, exclusiveEnd)` from `src/util.ts`: the ordered
list of integers from the start (inclusive) to the end (exclusive). -/
def range (inclusiveStart exclusiveEnd : Nat) : List Nat :=
List.range' inclusiveStart (exclusiveEnd - inclusiveStart)

/-- Declarative deduplication of a key list by property name: a key whose
property name is an `Object.prototype` member is always dropped (it reads as
already merged through the prototype chain); of the remaining keys, only the
first occurrence of each property name is kept, in order.  This is the
operation the program performs where the specification says dedup; the merge
loop of the source is proved equal to it below. -/
def dedupProp (l : List Key) : List Key :=
l.foldl (fun acc k =>
  if keyToProp k ∈ objectPrototypeProps
      ∨ acc.any (fun k2 => keyToProp k2 == keyToProp k) then acc
  else acc ++ [k]) []

/-- The set of property names recorded by the merge loop after processing a
key list, starting from `seen`. -/
def seenAfter (seen : List String) : List Key → List String
| [] => seen
| k :: ks =>
  if keyToProp k ∈ seen then seenAfter seen ks
  else seenAfter (keyToProp k :: seen) ks

/-- Equality of two index specifiers up to reordering of the key list. -/
def sameUpToKeyOrder : IndexSpecifier → IndexSpecifier → Prop
| IndexSpecifier.indices a, IndexSpecifier.indices b => a.Perm b
| x, y => x = y

instance : DecidableRel sameUpToKeyOrder := by
  intro x y
  cases x <;> cases y <;> simp only [sameUpToKeyOrder] <;> infer_instance

/-- Equality of two index specifiers up to reordering of the key list and
identification of keys by their property-name coercion. -/
def sameUpToKeyProp : IndexSpecifier → IndexSpecifier → Prop
| IndexSpecifier.indices a, IndexSpecifier.indices b =>
    (a.map keyToProp).Perm (b.map keyToProp)
| x, y => x = y

instance : DecidableRel sameUpToKeyProp := by
  intro x y
  cases x <;> cases y <;> simp only [sameUpToKeyProp] <;> infer_instance

/-- A specifier whose key list (if any) is duplicate-free under
property-name coercion.  The specification requires this as an invariant:
an `Indices` value never contains duplicates. -/
def specDupFree : IndexSpecifier → Prop
| IndexSpecifier.indices l => (l.map keyToProp).Nodup
| _ => True

instance : DecidablePred specDupFree := by
  intro x
  cases x <;> simp only [specDupFree] <;> infer_instance

/-- A specifier none of whose keys coerce to an `Object.prototype` member
name, so none of its keys is swallowed by the prototype chain of the merge
bookkeeping object. -/
def specNoProto : IndexSpecifier → Prop
| IndexSpecifier.indices l => ∀ k ∈ l, keyToProp k ∉ objectPrototypeProps
| _ => True

instance : DecidablePred specNoProto := by
  intro x
  cases x <;> simp only [specNoProto] <;> infer_instance

/-- The mutable state of an `AutomaticChannel`: its `dirty` specifier and
its cached data.  The cache starts out undefined in the source
(`cachedData: DataType = undefined!`); the undefined sentinel is modelled
as `Option.none`. -/
structure AutoState (α : Type) where
  dirty : IndexSpecifier
  cachedData : Option α
deriving DecidableEq

/-- Everything observable about one evaluation of the `AutomaticChannel.data`
getter: the state of the channel afterwards, the returned data (or the
exception a user function threw), whether the incoming data was pulled, how
often the full `updateFunction` ran, and the keys `updateIndexFunction` was
invoked on, in invocation order. -/
structure ReadOut (α ε : Type) where
  state : AutoState α
  result : Except ε (Option α)
  pulled : Bool
  updateCalls : Nat
  updateIndexKeys : List Key

/-- The per-index update loop of the getter: `updateIndexFunction` is called
for each dirty key in order, mutating the cache in place.  A thrown
exception aborts the loop (the keys invoked so far, the current cache and
the exception are reported). -/
def runIndexUpdates {α ε : Type} (updateIndexFunction : Option α → Key → Except ε (Option α)) :
    List Key → Option α → Option α × List Key × Option ε
| [], c => (c, [], Option.none)
| k :: ks, c =>
  match updateIndexFunction c k with
  | Except.error e => (c, [k], Option.some e)
  | Except.ok c2 =>
      let r := runIndexUpdates updateIndexFunction ks c2
      (r.1, k :: r.2.1, r.2.2)

/-- The full-recompute arm of the `AutomaticChannel.data` getter: the full
`updateFunction` runs on the pulled incoming data and its result replaces
the cache, after which `dirty` becomes `indexNone`; a thrown exception
leaves the state untouched. -/
def autoReadFull {ι α ε : Type} (incomingData : ι) (updateFunction : ι → Except ε α)
    (st : AutoState α) : ReadOut α ε :=
  match updateFunction incomingData with
  | Except.error e => ⟨st, Except.error e, true, 1, []⟩
  | Except.ok v =>
      ⟨⟨indexNone, Option.some v⟩, Except.ok (Option.some v), true, 1, []⟩

/-- The dispatch of the `AutomaticChannel.data` getter once `dirty` is known
to be non-empty: when `dirty` is an `Indices` list and an
`updateIndexFunction` was provided, that function is run once per dirty key
in order, mutating the cache in place (`dirty` becomes `indexNone` only when
no call throws); in every other case the full recompute runs.  The source
writes this as one `if` over `this.dirty.indexType === "Indices" &&
this.updateIndexFunction != null`; the cases are spelled out here so that
each equation is unconditional. -/
def autoReadDirty {ι α ε : Type} (incomingData : ι) (updateFunction : ι → Except ε α)
    (dirty : IndexSpecifier)
    (updateIndexFunction : Option (ι → Option α → Key → Except ε (Option α)))
    (cachedData : Option α) : ReadOut α ε :=
  match dirty, updateIndexFunction with
  | IndexSpecifier.indices ks, Option.some f =>
      let r := runIndexUpdates (f incomingData) ks cachedData
      match r.2.2 with
      | Option.some e =>
          ⟨⟨IndexSpecifier.indices ks, r.1⟩, Except.error e, true, 0, r.2.1⟩
      | Option.none => ⟨⟨indexNone, r.1⟩, Except.ok r.1, true, 0, r.2.1⟩
  | IndexSpecifier.indices ks, Option.none =>
      autoReadFull incomingData updateFunction ⟨IndexSpecifier.indices ks, cachedData⟩
  | IndexSpecifier.all, _ =>
      autoReadFull incomingData updateFunction ⟨IndexSpecifier.all, cachedData⟩
  | IndexSpecifier.none, _ =>
      autoReadFull incomingData updateFunction ⟨IndexSpecifier.none, cachedData⟩

/-- The `AutomaticChannel.data` getter from `src/channel.ts`.  If `dirty` is
empty the cached data is returned at once, pulling no input and running no
update function.  Otherwise the incoming data is pulled and the recompute
dispatches on the shape of `dirty` and the presence of an
`updateIndexFunction`.  A user exception leaves `dirty` untouched because
the assignment `this.dirty = indexNone` is never reached. -/
def autoRead {ι α ε : Type} (incomingData : ι) (updateFunction : ι → Except ε α)
    (updateIndexFunction : Option (ι → Option α → Key → Except ε (Option α)))
    (st : AutoState α) : ReadOut α ε :=
  if indexEmpty st.dirty then
    ⟨st, Except.ok st.cachedData, false, 0, []⟩
  else
    autoReadDirty incomingData updateFunction st.dirty updateIndexFunction st.cachedData

/-- The error thrown when an `AutomaticChannel` is constructed with no
incoming channels (`NoIncomingChannelsError`). -/
inductive ChannelInitError where
| noIncomingChannels : ChannelInitError
deriving DecidableEq

/-- The state an `AutomaticChannel` constructor produces: the incoming
channels, the derived incoming connectors (missing positions are subbed in
with connectors that always return `indexAll`), the initial `dirty`
specifier (`indexAll`), the uninitialized cache, and the eager flag. -/
structure AutomaticChannelInit (χ α : Type) where
  incomingChannels : List χ
  incomingConnectors : List (IndexSpecifier → IndexSpecifier)
  dirty : IndexSpecifier
  cachedData : Option α
  eager : Bool

/-- The `AutomaticChannel` constructor from `src/channel.ts`: it throws
`NoIncomingChannelsError` when the incoming channel list is empty, and
otherwise completes, defaulting every connector position at or beyond the
length of `connectorMap` to a connector that always returns `indexAll`. -/
def mkAutomaticChannel {χ α : Type} (incomingChannels : List χ)
    (connectorMap : List (IndexSpecifier → IndexSpecifier)) (eager : Bool) :
    Except ChannelInitError (AutomaticChannelInit χ α) :=
  if incomingChannels.length = 0 then
    Except.error ChannelInitError.noIncomingChannels
  else
    Except.ok
      { incomingChannels := incomingChannels
        incomingConnectors :=
          (List.range incomingChannels.length).map (fun i =>
            if i ≥ connectorMap.length then (fun _ => indexAll)
            else connectorMap.getD i (fun _ => indexAll))
        dirty := indexAll
        cachedData := Option.none
        eager := eager }

/-- A two-node channel system: a `DataChannel` source holding `srcData`,
connected through the connector `conn` to one `AutomaticChannel` whose
mutable state is `dState` and whose eager flag is `dEager`.  This is the
graph built by `new AutomaticChannel([s], f, ...)`, the shape the
source-and-derived claims quantify over. -/
structure Sys1 (α β : Type) where
  srcData : α
  conn : IndexSpecifier → IndexSpecifier
  dState : AutoState β
  dEager : Bool

/-- The source method `markDirty` arriving at the derived channel of a `Sys1` system: its
dirty specifier merges in the incoming region; the derived channel has no
outgoing edges, so no further propagation happens; if it is eager, its
`data` getter is forced and the observations of that read are returned. -/
def Sys1.markDirtyD {α β ε : Type} (updateFunction : α → Except ε β)
    (updateIndexFunction : Option (α → Option β → Key → Except ε (Option β)))
    (st : Sys1 α β) (region : IndexSpecifier) :
    Sys1 α β × Option (ReadOut β ε) :=
  let d1 : Sys1 α β :=
    { st with dState := ⟨mergeIndexSpecifiers st.dState.dirty region, st.dState.cachedData⟩ }
  if d1.dEager then
    let out := autoRead d1.srcData updateFunction updateIndexFunction d1.dState
    ({ d1 with dState := out.state }, Option.some out)
  else (d1, Option.none)

/-- The `DataChannel` data setter from `src/channel.ts`: the underlying data
is replaced, then every connected channel is marked dirty with the region
its connector produces for `indexAll`. -/
def Sys1.write {α β ε : Type} (updateFunction : α → Except ε β)
    (updateIndexFunction : Option (α → Option β → Key → Except ε (Option β)))
    (st : Sys1 α β) (x : α) : Sys1 α β × Option (ReadOut β ε) :=
  let st1 := { st with srcData := x }
  Sys1.markDirtyD updateFunction updateIndexFunction st1 (st1.conn indexAll)

/-- Reading the derived channel of a `Sys1` system: the getter runs with the
current source data as the (single) incoming data. -/
def Sys1.readD {α β ε : Type} (updateFunction : α → Except ε β)
    (updateIndexFunction : Option (α → Option β → Key → Except ε (Option β)))
    (st : Sys1 α β) : Sys1 α β × ReadOut β ε :=
  let out := autoRead st.srcData updateFunction updateIndexFunction st.dState
  ({ st with dState := out.state }, out)

/-- Source method `List.insert(index, newData)` from `src/channelFn.ts` on the source of a
`Sys1` system: the element is spliced into the underlying list, then each
connected channel is marked dirty with the connector applied to
`indices(range(index, newLength))`. -/
def Sys1.insertAt {γ β ε : Type} (updateFunction : List γ → Except ε β)
    (updateIndexFunction : Option (List γ → Option β → Key → Except ε (Option β)))
    (st : Sys1 (List γ) β) (index : Nat) (newData : γ) :
    Sys1 (List γ) β × Option (ReadOut β ε) :=
  let spliced := st.srcData.take index ++ newData :: st.srcData.drop index
  let st1 := { st with srcData := spliced }
  Sys1.markDirtyD updateFunction updateIndexFunction st1
    (st1.conn (indices ((range index spliced.length).map Key.num)))

/-- JavaScript assignment `arr[n] = v` on an array modelled as a list: an
in-range index is overwritten; the index equal to the length appends.  (An
index beyond the length would create holes; the core never produces one, and
it is modelled as a no-op.) -/
def jsArraySet {β : Type} (arr : List β) (n : Nat) (v : β) : List β :=
  if n < arr.length then arr.set n v
  else if n = arr.length then arr ++ [v]
  else arr

/-- The `updateIndexFunction` of `List.map` from `src/channelFn.ts`:
`data[i] = fn(items[0][i])`.  Reading `items[0][i]` out of range or
assigning into an undefined cache has no defined meaning for the core and is
modelled as a thrown error. -/
def mapUpdateAt {γ β : Type} (fn : γ → β) (incomingData : List γ) (cachedData : Option (List β))
    (index : Key) : Except Unit (Option (List β)) :=
  match cachedData, index with
  | Option.some arr, Key.num n =>
      match incomingData.get? n with
      | Option.some x => Except.ok (Option.some (jsArraySet arr n (fn x)))
      | Option.none => Except.error ()
  | _, _ => Except.error ()

/-- The full compute of `List.map`: `(list) => list.map((item) => fn(item))`. -/
def mapCompute {γ β : Type} (fn : γ → β) (xs : List γ) : Except Unit (List β) :=
  Except.ok (xs.map fn)

/-- A pair of connected channels for the cache-mutator path of
`Channel.markDirty`: an upstream channel (its own dirty specifier and cache)
with exactly one outgoing edge to a downstream channel (its dirty specifier
and cache).  The caches are given one common type because the source stores
the edges as `ChannelWithConnector<any>`. -/
structure TwoChan (α : Type) where
  uDirty : IndexSpecifier
  uCache : α
  dDirty : IndexSpecifier
  dCache : α

/-- Source method `Channel.markDirty` from `src/channel.ts` on the upstream channel of a
`TwoChan` pair.  Following the source line by line: the incoming region is
merged into the dirty specifier of the upstream; the connector of the one
outgoing edge is invoked, producing a cache modifier and a downstream
region; the modifier is applied to `this.cachedData` — the cache of the
UPSTREAM channel, the one running `markDirty` — and then the downstream is
marked dirty with the produced region (the downstream here has no further
edges and is not eager). -/
def TwoChan.markDirtyU {α : Type}
    (connector : Nat → IndexSpecifier → ((α → α) × IndexSpecifier))
    (st : TwoChan α) (region : IndexSpecifier) : TwoChan α :=
  let st1 := { st with uDirty := mergeIndexSpecifiers st.uDirty region }
  let p := connector 0 region
  let st2 := { st1 with uCache := p.1 st1.uCache }
  { st2 with dDirty := mergeIndexSpecifiers st2.dDirty p.2 }

/-- One event in a `markDirty` traversal: a channel merging a region into
its dirty specifier, or an eager channel forcing a read of its own data. -/
inductive DirtyEv where
| marked : Nat → IndexSpecifier → DirtyEv
| readSelf : Nat → DirtyEv
deriving DecidableEq

/-- The unfolding of a channel graph as seen by one `markDirty` traversal:
each node carries an identifier, its eager flag, and its outgoing edges in
insertion order, each edge labelled with its connector.  (`markDirty` never
deduplicates visits, so a traversal of a DAG is exactly a traversal of its
tree unfolding.) -/
inductive ChanTree where
| node : Nat → Bool → List ((IndexSpecifier → IndexSpecifier) × ChanTree) → ChanTree

mutual

/-- The event trace of `Channel.markDirty` from `src/channel.ts`: the
channel merges the region into its dirty specifier, every outgoing edge is
visited in insertion order with the recursion completing before the next
edge, and, last of all, an eager channel forces a read of its own data. -/
def markDirtyTrace : ChanTree → IndexSpecifier → List DirtyEv
| ChanTree.node id eager edges, region =>
    DirtyEv.marked id region ::
      (markDirtyTraceEdges edges region ++
        (if eager then [DirtyEv.readSelf id] else []))

/-- The concatenated traces of the downstream edges, in insertion order. -/
def markDirtyTraceEdges :
    List ((IndexSpecifier → IndexSpecifier) × ChanTree) → IndexSpecifier → List DirtyEv
| [], _ => []
| (conn, t) :: rest, region =>
    markDirtyTrace t (conn region) ++ markDirtyTraceEdges rest region

end

/-- A nested JavaScript value as handled by `unravelData`: a primitive
number or string, an array, a plain object, or a channel.  Reading the data
of a channel (`object.data`) yields the payload value, which may itself
contain further channels. -/
inductive JsVal where
| prim : Int → JsVal
| strv : String → JsVal
| arr : List JsVal → JsVal
| obj : List (String × JsVal) → JsVal
| chan : JsVal → JsVal

mutual

/-- Source function `unravelData` from `src/channelFn.ts`, translated branch by branch: a
channel is replaced by its data — the source returns `object.data` with no
recursive call on it — an array maps `unravelData` over its elements, an
object maps `unravelData` over its values, and anything else is returned
as is. -/
def unravelData : JsVal → JsVal
| JsVal.chan v => v
| JsVal.arr l => JsVal.arr (unravelList l)
| JsVal.obj kvs => JsVal.obj (unravelEntries kvs)
| JsVal.prim n => JsVal.prim n
| JsVal.strv s => JsVal.strv s

/-- Helper: `unravelData` mapped over the elements of an array. -/
def unravelList : List JsVal → List JsVal
| [] => []
| v :: rest => unravelData v :: unravelList rest

/-- Helper: `unravelData` mapped over the values of an object. -/
def unravelEntries : List (String × JsVal) → List (String × JsVal)
| [] => []
| (k, v) :: rest => (k, unravelData v) :: unravelEntries rest

end

mutual

/-- Whether a channel occurs anywhere in a nested value. -/
def containsChannel : JsVal → Bool
| JsVal.chan _ => true
| JsVal.arr l => containsChannelList l
| JsVal.obj kvs => containsChannelEntries kvs
| JsVal.prim _ => false
| JsVal.strv _ => false

/-- Whether a channel occurs anywhere in a list of nested values. -/
def containsChannelList : List JsVal → Bool
| [] => false
| v :: rest => containsChannel v || containsChannelList rest

/-- Whether a channel occurs anywhere among the values of an object. -/
def containsChannelEntries : List (String × JsVal) → Bool
| [] => false
| (_, v) :: rest => containsChannel v || containsChannelEntries rest

end



/-! ### Properties of the key-merging loop -/

theorem seenAfter_mem (l : List Key) : ∀ (s : List String) (p : String),
    p ∈ seenAfter s l ↔ p ∈ s ∨ p ∈ l.map keyToProp := by
  induction l with
  | nil => intro s p; simp [seenAfter]
  | cons k ks ih =>
    intro s p
    by_cases h : keyToProp k ∈ s
    · rw [seenAfter, if_pos h, ih]
      simp only [List.map_cons, List.mem_cons]
      by_cases hp : p = keyToProp k
      · subst hp; simp [h]
      · simp [hp]
    · rw [seenAfter, if_neg h, ih]
      simp only [List.mem_cons, List.map_cons]
      tauto

theorem mergeKeysGo_congr (l : List Key) : ∀ (s t : List String),
    (∀ p, p ∈ s ↔ p ∈ t) → mergeKeysGo s l = mergeKeysGo t l := by
  induction l with
  | nil => intro s t _; rfl
  | cons k ks ih =>
    intro s t hst
    by_cases h : keyToProp k ∈ s
    · have h2 : keyToProp k ∈ t := (hst _).1 h
      rw [mergeKeysGo, if_pos h, mergeKeysGo, if_pos h2]
      exact ih s t hst
    · have h2 : keyToProp k ∉ t := fun hc => h ((hst _).2 hc)
      rw [mergeKeysGo, if_neg h, mergeKeysGo, if_neg h2]
      refine congrArg _ (ih _ _ ?_)
      intro p
      simp only [List.mem_cons]
      exact or_congr Iff.rfl (hst p)

theorem mergeKeysGo_append (u : List Key) : ∀ (v : List Key) (s : List String),
    mergeKeysGo s (u ++ v) = mergeKeysGo s u ++ mergeKeysGo (seenAfter s u) v := by
  induction u with
  | nil => intro v s; simp [mergeKeysGo, seenAfter]
  | cons k u ih =>
    intro v s
    by_cases h : keyToProp k ∈ s
    · rw [List.cons_append, mergeKeysGo, if_pos h, ih, mergeKeysGo, if_pos h,
        seenAfter, if_pos h]
    · rw [List.cons_append, mergeKeysGo, if_neg h, ih, mergeKeysGo, if_neg h,
        seenAfter, if_neg h, List.cons_append]

theorem mem_map_mergeKeysGo (l : List Key) : ∀ (s : List String) (p : String),
    p ∈ (mergeKeysGo s l).map keyToProp ↔ p ∉ s ∧ p ∈ l.map keyToProp := by
  induction l with
  | nil => intro s p; simp [mergeKeysGo]
  | cons k ks ih =>
    intro s p
    by_cases h : keyToProp k ∈ s
    · rw [mergeKeysGo, if_pos h, ih]
      simp only [List.map_cons, List.mem_cons]
      constructor
      · rintro ⟨h1, h2⟩; exact ⟨h1, Or.inr h2⟩
      · rintro ⟨h1, h2 | h2⟩
        · exact absurd (h2 ▸ h) h1
        · exact ⟨h1, h2⟩
    · rw [mergeKeysGo, if_neg h]
      simp only [List.map_cons, List.mem_cons, ih]
      by_cases hp : p = keyToProp k
      · subst hp; simp [h]
      · simp [hp]

theorem nodup_map_mergeKeysGo (l : List Key) : ∀ (s : List String),
    ((mergeKeysGo s l).map keyToProp).Nodup := by
  induction l with
  | nil => intro s; simp [mergeKeysGo]
  | cons k ks ih =>
    intro s
    by_cases h : keyToProp k ∈ s
    · rw [mergeKeysGo, if_pos h]; exact ih s
    · rw [mergeKeysGo, if_neg h]
      simp only [List.map_cons, List.nodup_cons]
      refine ⟨fun hc => ?_, ih _⟩
      have := (mem_map_mergeKeysGo ks _ _).1 hc
      exact this.1 (List.mem_cons_self _ _)

theorem mergeKeysGo_mergeKeysGo (l : List Key) : ∀ (s t : List String),
    (∀ p, p ∈ t → p ∈ s) → mergeKeysGo s (mergeKeysGo t l) = mergeKeysGo s l := by
  induction l with
  | nil => intro s t _; rfl
  | cons k ks ih =>
    intro s t hts
    by_cases ht : keyToProp k ∈ t
    · rw [mergeKeysGo, if_pos ht, mergeKeysGo, if_pos (hts _ ht)]
      exact ih s t hts
    · rw [mergeKeysGo, if_neg ht]
      by_cases hs : keyToProp k ∈ s
      · rw [mergeKeysGo, if_pos hs, mergeKeysGo, if_pos hs]
        refine ih s _ ?_
        intro p hp
        rcases List.mem_cons.1 hp with hp | hp
        · exact hp ▸ hs
        · exact hts p hp
      · rw [mergeKeysGo, if_neg hs, mergeKeysGo, if_neg hs]
        refine congrArg _ (ih _ _ ?_)
        intro p hp
        rcases List.mem_cons.1 hp with hp | hp
        · exact hp ▸ List.mem_cons_self _ _
        · exact List.mem_cons_of_mem _ (hts p hp)

theorem mergeKeysGo_eq_nil_iff (l : List Key) : ∀ (s : List String),
    mergeKeysGo s l = [] ↔ ∀ k ∈ l, keyToProp k ∈ s := by
  induction l with
  | nil => intro s; simp [mergeKeysGo]
  | cons k ks ih =>
    intro s
    by_cases h : keyToProp k ∈ s
    · rw [mergeKeysGo, if_pos h, ih]
      simp [h, List.forall_mem_cons]
    · rw [mergeKeysGo, if_neg h]
      simp [List.forall_mem_cons, h]

theorem mergeKeysGo_of_nodup (l : List Key) : ∀ (s : List String),
    (l.map keyToProp).Nodup → (∀ k ∈ l, keyToProp k ∉ s) → mergeKeysGo s l = l := by
  induction l with
  | nil => intro s _ _; rfl
  | cons k ks ih =>
    intro s hnd hs
    have h : keyToProp k ∉ s := hs k (List.mem_cons_self _ _)
    rw [mergeKeysGo, if_neg h]
    simp only [List.map_cons, List.nodup_cons] at hnd
    refine congrArg _ (ih _ hnd.2 ?_)
    intro k2 hk2
    simp only [List.mem_cons]
    rintro (hc | hc)
    · exact hnd.1 (hc ▸ List.mem_map_of_mem keyToProp hk2)
    · exact hs k2 (List.mem_cons_of_mem _ hk2) hc

theorem dedupProp_go (l : List Key) : ∀ (acc : List Key) (s : List String),
    (∀ p, p ∈ s ↔ p ∈ objectPrototypeProps ∨ ∃ k2 ∈ acc, keyToProp k2 = p) →
    List.foldl (fun acc k =>
        if keyToProp k ∈ objectPrototypeProps
            ∨ acc.any (fun k2 => keyToProp k2 == keyToProp k) then acc
        else acc ++ [k]) acc l
      = acc ++ mergeKeysGo s l := by
  induction l with
  | nil => intro acc s _; simp [mergeKeysGo]
  | cons k ks ih =>
    intro acc s hs
    by_cases h : keyToProp k ∈ s
    · have hcond : keyToProp k ∈ objectPrototypeProps
          ∨ (acc.any (fun k2 => keyToProp k2 == keyToProp k)) = true := by
        rcases (hs _).1 h with hp | ⟨k2, hk2, he⟩
        · exact Or.inl hp
        · exact Or.inr (List.any_eq_true.2 ⟨k2, hk2, by simp [he]⟩)
      rw [List.foldl_cons, mergeKeysGo, if_pos h]
      rw [show (if keyToProp k ∈ objectPrototypeProps
          ∨ acc.any (fun k2 => keyToProp k2 == keyToProp k) then acc
          else acc ++ [k]) = acc from if_pos hcond]
      exact ih acc s hs
    · have hp1 : keyToProp k ∉ objectPrototypeProps := fun hc => h ((hs _).2 (Or.inl hc))
      have hp2 : (acc.any (fun k2 => keyToProp k2 == keyToProp k)) = false := by
        rw [List.any_eq_false]
        intro k2 hk2
        simp only [beq_iff_eq]
        intro hc
        exact h ((hs _).2 (Or.inr ⟨k2, hk2, hc⟩))
      have hcond : ¬(keyToProp k ∈ objectPrototypeProps
          ∨ (acc.any (fun k2 => keyToProp k2 == keyToProp k)) = true) := by
        rintro (hc | hc)
        · exact hp1 hc
        · rw [hp2] at hc
          exact Bool.noConfusion hc
      rw [List.foldl_cons, mergeKeysGo, if_neg h]
      rw [show (if keyToProp k ∈ objectPrototypeProps
          ∨ acc.any (fun k2 => keyToProp k2 == keyToProp k) then acc
          else acc ++ [k]) = acc ++ [k] from if_neg hcond]
      rw [ih (acc ++ [k]) (keyToProp k :: s) ?_]
      · simp
      · intro p
        constructor
        · intro hp
          rcases List.mem_cons.1 hp with hp | hp
          · exact Or.inr ⟨k, List.mem_append.2 (Or.inr (List.mem_singleton.2 rfl)), hp.symm⟩
          · rcases (hs p).1 hp with hq | ⟨k2, hk2, he⟩
            · exact Or.inl hq
            · exact Or.inr ⟨k2, List.mem_append.2 (Or.inl hk2), he⟩
        · rintro (hq | ⟨k2, hk2, he⟩)
          · exact List.mem_cons.2 (Or.inr ((hs p).2 (Or.inl hq)))
          · rcases List.mem_append.1 hk2 with hk2 | hk2
            · exact List.mem_cons.2 (Or.inr ((hs p).2 (Or.inr ⟨k2, hk2, he⟩)))
            · have hkk : k2 = k := List.mem_singleton.1 hk2
              exact List.mem_cons.2 (Or.inl (by rw [← he, hkk]))

theorem dedupProp_eq_mergeKeysGo (l : List Key) :
    dedupProp l = mergeKeysGo objectPrototypeProps l := by
  have h := dedupProp_go l [] objectPrototypeProps (by
    intro p
    simp)
  simpa [dedupProp] using h

/-! ### Merge-level lemmas -/

theorem normalizeIndexSpecifier_all : normalizeIndexSpecifier indexAll = indexAll := rfl

theorem normalizeIndexSpecifier_none : normalizeIndexSpecifier indexNone = indexNone := rfl

theorem normalizeIndexSpecifier_indices_nil :
    normalizeIndexSpecifier (indices []) = indexNone := rfl

theorem normalizeIndexSpecifier_indices_of_ne_nil {l : List Key} (h : l ≠ []) :
    normalizeIndexSpecifier (indices l) = indices l := by
  rw [normalizeIndexSpecifier, if_neg]
  simp [indexEmpty, indices, List.length_eq_zero, h]

theorem normalizeIndexSpecifier_idem (x : IndexSpecifier) :
    normalizeIndexSpecifier (normalizeIndexSpecifier x) = normalizeIndexSpecifier x := by
  cases x with
  | all => rfl
  | none => rfl
  | indices l =>
    by_cases h : l = []
    · subst h; rfl
    · show normalizeIndexSpecifier (normalizeIndexSpecifier (indices l))
        = normalizeIndexSpecifier (indices l)
      rw [normalizeIndexSpecifier_indices_of_ne_nil h,
        normalizeIndexSpecifier_indices_of_ne_nil h]

theorem mergeIndexSpecifiers_all_left (x : IndexSpecifier) :
    mergeIndexSpecifiers indexAll x = indexAll := by
  cases x <;> rfl

theorem mergeIndexSpecifiers_all_right (x : IndexSpecifier) :
    mergeIndexSpecifiers x indexAll = indexAll := by
  cases x <;> rfl

theorem mergeIndexSpecifiers_none_left (x : IndexSpecifier) :
    mergeIndexSpecifiers indexNone x = normalizeIndexSpecifier x := by
  cases x <;> rfl

theorem mergeIndexSpecifiers_none_right (x : IndexSpecifier) :
    mergeIndexSpecifiers x indexNone = normalizeIndexSpecifier x := by
  cases x <;> rfl

theorem mergeIndexSpecifiers_indices (la lb : List Key) :
    mergeIndexSpecifiers (indices la) (indices lb)
      = normalizeIndexSpecifier (indices (mergeKeysGo objectPrototypeProps (la ++ lb))) := rfl

theorem mergeIndexSpecifiers_normalized (x y : IndexSpecifier) :
    normalizeIndexSpecifier (mergeIndexSpecifiers x y) = mergeIndexSpecifiers x y := by
  cases x with
  | all =>
    show normalizeIndexSpecifier (mergeIndexSpecifiers indexAll y) = mergeIndexSpecifiers indexAll y
    rw [mergeIndexSpecifiers_all_left]; rfl
  | none =>
    show normalizeIndexSpecifier (mergeIndexSpecifiers indexNone y) = mergeIndexSpecifiers indexNone y
    rw [mergeIndexSpecifiers_none_left, normalizeIndexSpecifier_idem]
  | indices la =>
    cases y with
    | all =>
      show normalizeIndexSpecifier (mergeIndexSpecifiers (indices la) indexAll)
        = mergeIndexSpecifiers (indices la) indexAll
      rw [mergeIndexSpecifiers_all_right]; rfl
    | none =>
      show normalizeIndexSpecifier (mergeIndexSpecifiers (indices la) indexNone)
        = mergeIndexSpecifiers (indices la) indexNone
      rw [mergeIndexSpecifiers_none_right, normalizeIndexSpecifier_idem]
    | indices lb =>
      show normalizeIndexSpecifier (mergeIndexSpecifiers (indices la) (indices lb))
        = mergeIndexSpecifiers (indices la) (indices lb)
      rw [mergeIndexSpecifiers_indices, normalizeIndexSpecifier_idem]

theorem mergeKeysGo_append_comm_nil (s : List String) (u v : List Key)
    (h : mergeKeysGo s (u ++ v) = []) : mergeKeysGo s (v ++ u) = [] := by
  rw [mergeKeysGo_eq_nil_iff] at h ⊢
  intro k hk
  refine h k ?_
  rcases List.mem_append.1 hk with hk | hk
  · exact List.mem_append.2 (Or.inr hk)
  · exact List.mem_append.2 (Or.inl hk)

theorem mergeKeysGo_proto_eq_nil_iff {l : List Key}
    (hnp : ∀ k ∈ l, keyToProp k ∉ objectPrototypeProps) :
    mergeKeysGo objectPrototypeProps l = [] ↔ l = [] := by
  rw [mergeKeysGo_eq_nil_iff]
  constructor
  · intro h
    cases l with
    | nil => rfl
    | cons k ks =>
      exact absurd (h k (List.mem_cons_self _ _)) (hnp k (List.mem_cons_self _ _))
  · intro h; subst h; simp

theorem mergeKeysGo_proto_of_nodup {l : List Key} (h : (l.map keyToProp).Nodup)
    (hnp : ∀ k ∈ l, keyToProp k ∉ objectPrototypeProps) :
    mergeKeysGo objectPrototypeProps l = l :=
  mergeKeysGo_of_nodup l objectPrototypeProps h hnp

theorem mergeKeysGo_proto_idem (l : List Key) :
    mergeKeysGo objectPrototypeProps (mergeKeysGo objectPrototypeProps l)
      = mergeKeysGo objectPrototypeProps l :=
  mergeKeysGo_mergeKeysGo l objectPrototypeProps objectPrototypeProps (fun _ hp => hp)

theorem mergeKeysGo_append_dedup_left (u v : List Key) :
    mergeKeysGo objectPrototypeProps (mergeKeysGo objectPrototypeProps u ++ v)
      = mergeKeysGo objectPrototypeProps (u ++ v) := by
  rw [mergeKeysGo_append, mergeKeysGo_append u v, mergeKeysGo_proto_idem]
  refine congrArg _ (mergeKeysGo_congr v _ _ ?_)
  intro p
  rw [seenAfter_mem, seenAfter_mem]
  rw [mem_map_mergeKeysGo]
  by_cases hp : p ∈ objectPrototypeProps
  · simp [hp]
  · simp [hp]

theorem mergeKeysGo_append_dedup_right (u v : List Key) :
    mergeKeysGo objectPrototypeProps (u ++ mergeKeysGo objectPrototypeProps v)
      = mergeKeysGo objectPrototypeProps (u ++ v) := by
  rw [mergeKeysGo_append u _, mergeKeysGo_append u v]
  refine congrArg _ (mergeKeysGo_mergeKeysGo v _ objectPrototypeProps ?_)
  intro p hp
  rw [seenAfter_mem]
  exact Or.inl hp

theorem sameUpToKeyProp_refl (x : IndexSpecifier) : sameUpToKeyProp x x := by
  cases x with
  | indices l => exact List.Perm.refl _
  | all => exact rfl
  | none => exact rfl

theorem mergeIndexSpecifiers_comm_prop (a b : IndexSpecifier) :
    sameUpToKeyProp (mergeIndexSpecifiers a b) (mergeIndexSpecifiers b a) := by
  cases a with
  | all =>
    show sameUpToKeyProp (mergeIndexSpecifiers indexAll b) (mergeIndexSpecifiers b indexAll)
    rw [mergeIndexSpecifiers_all_left, mergeIndexSpecifiers_all_right]
    exact sameUpToKeyProp_refl _
  | none =>
    show sameUpToKeyProp (mergeIndexSpecifiers indexNone b) (mergeIndexSpecifiers b indexNone)
    rw [mergeIndexSpecifiers_none_left, mergeIndexSpecifiers_none_right]
    exact sameUpToKeyProp_refl _
  | indices la =>
    cases b with
    | all =>
      show sameUpToKeyProp (mergeIndexSpecifiers (indices la) indexAll)
        (mergeIndexSpecifiers indexAll (indices la))
      rw [mergeIndexSpecifiers_all_right, mergeIndexSpecifiers_all_left]
      exact sameUpToKeyProp_refl _
    | none =>
      show sameUpToKeyProp (mergeIndexSpecifiers (indices la) indexNone)
        (mergeIndexSpecifiers indexNone (indices la))
      rw [mergeIndexSpecifiers_none_right, mergeIndexSpecifiers_none_left]
      exact sameUpToKeyProp_refl _
    | indices lb =>
      show sameUpToKeyProp (mergeIndexSpecifiers (indices la) (indices lb))
        (mergeIndexSpecifiers (indices lb) (indices la))
      rw [mergeIndexSpecifiers_indices, mergeIndexSpecifiers_indices]
      by_cases h : mergeKeysGo objectPrototypeProps (la ++ lb) = []
      · rw [h, mergeKeysGo_append_comm_nil objectPrototypeProps la lb h]
        exact sameUpToKeyProp_refl _
      · have h2 : mergeKeysGo objectPrototypeProps (lb ++ la) ≠ [] := by
          intro hcon
          exact h (mergeKeysGo_append_comm_nil objectPrototypeProps lb la hcon)
        rw [normalizeIndexSpecifier_indices_of_ne_nil h,
          normalizeIndexSpecifier_indices_of_ne_nil h2]
        show ((mergeKeysGo objectPrototypeProps (la ++ lb)).map keyToProp).Perm
          ((mergeKeysGo objectPrototypeProps (lb ++ la)).map keyToProp)
        refine (List.perm_ext_iff_of_nodup (nodup_map_mergeKeysGo _ _)
          (nodup_map_mergeKeysGo _ _)).2 ?_
        intro p
        rw [mem_map_mergeKeysGo, mem_map_mergeKeysGo]
        simp only [List.map_append, List.mem_append]
        exact and_congr Iff.rfl or_comm

theorem mergeIndexSpecifiers_self (a : IndexSpecifier) (ha : specDupFree a)
    (hnpa : specNoProto a) :
    mergeIndexSpecifiers a a = normalizeIndexSpecifier a := by
  cases a with
  | all => rfl
  | none => rfl
  | indices l =>
    have hnd : (l.map keyToProp).Nodup := ha
    have hnp : ∀ k ∈ l, keyToProp k ∉ objectPrototypeProps := hnpa
    show mergeIndexSpecifiers (indices l) (indices l) = normalizeIndexSpecifier (indices l)
    rw [mergeIndexSpecifiers_indices, mergeKeysGo_append,
      mergeKeysGo_proto_of_nodup hnd hnp]
    have hz : mergeKeysGo (seenAfter objectPrototypeProps l) l = [] := by
      rw [mergeKeysGo_eq_nil_iff]
      intro k hk
      rw [seenAfter_mem]
      exact Or.inr (List.mem_map_of_mem keyToProp hk)
    rw [hz, List.append_nil]

theorem mergeIndexSpecifiers_assoc (a b c : IndexSpecifier)
    (ha : specDupFree a) (hb : specDupFree b) (hc : specDupFree c)
    (hnpa : specNoProto a) (hnpb : specNoProto b) (hnpc : specNoProto c) :
    mergeIndexSpecifiers (mergeIndexSpecifiers a b) c
      = mergeIndexSpecifiers a (mergeIndexSpecifiers b c) := by
  cases a with
  | all =>
    show mergeIndexSpecifiers (mergeIndexSpecifiers indexAll b) c
      = mergeIndexSpecifiers indexAll (mergeIndexSpecifiers b c)
    rw [mergeIndexSpecifiers_all_left, mergeIndexSpecifiers_all_left,
      mergeIndexSpecifiers_all_left]
  | none =>
    cases b with
    | all =>
      show mergeIndexSpecifiers (mergeIndexSpecifiers indexNone indexAll) c
        = mergeIndexSpecifiers indexNone (mergeIndexSpecifiers indexAll c)
      rw [mergeIndexSpecifiers_none_left, normalizeIndexSpecifier_all,
        mergeIndexSpecifiers_all_left,
        mergeIndexSpecifiers_none_left, normalizeIndexSpecifier_all]
    | none =>
      show mergeIndexSpecifiers (mergeIndexSpecifiers indexNone indexNone) c
        = mergeIndexSpecifiers indexNone (mergeIndexSpecifiers indexNone c)
      rw [mergeIndexSpecifiers_none_left, normalizeIndexSpecifier_none,
        mergeIndexSpecifiers_none_left, mergeIndexSpecifiers_none_left,
        normalizeIndexSpecifier_idem]
    | indices lb =>
      have hbnd : (lb.map keyToProp).Nodup := hb
      show mergeIndexSpecifiers (mergeIndexSpecifiers indexNone (indices lb)) c
        = mergeIndexSpecifiers indexNone (mergeIndexSpecifiers (indices lb) c)
      rw [mergeIndexSpecifiers_none_left, mergeIndexSpecifiers_none_left,
        mergeIndexSpecifiers_normalized]
      by_cases hlb : lb = []
      · subst hlb
        rw [normalizeIndexSpecifier_indices_nil]
        cases c with
        | all =>
          show mergeIndexSpecifiers indexNone indexAll
            = mergeIndexSpecifiers (indices []) indexAll
          rw [mergeIndexSpecifiers_all_right, mergeIndexSpecifiers_all_right]
        | none =>
          show mergeIndexSpecifiers indexNone indexNone
            = mergeIndexSpecifiers (indices []) indexNone
          rw [mergeIndexSpecifiers_none_right, mergeIndexSpecifiers_none_right,
            normalizeIndexSpecifier_none, normalizeIndexSpecifier_indices_nil]
        | indices lc =>
          have hcnd : (lc.map keyToProp).Nodup := hc
          have hcp : forall k, k ∈ lc → keyToProp k ∉ objectPrototypeProps := hnpc
          show mergeIndexSpecifiers indexNone (indices lc)
            = mergeIndexSpecifiers (indices []) (indices lc)
          rw [mergeIndexSpecifiers_none_left, mergeIndexSpecifiers_indices,
            List.nil_append, mergeKeysGo_proto_of_nodup hcnd hcp]
      · rw [normalizeIndexSpecifier_indices_of_ne_nil hlb]
  | indices la =>
    have hand : (la.map keyToProp).Nodup := ha
    have hap : forall k, k ∈ la → keyToProp k ∉ objectPrototypeProps := hnpa
    cases b with
    | all =>
      show mergeIndexSpecifiers (mergeIndexSpecifiers (indices la) indexAll) c
        = mergeIndexSpecifiers (indices la) (mergeIndexSpecifiers indexAll c)
      rw [mergeIndexSpecifiers_all_right, mergeIndexSpecifiers_all_left,
        mergeIndexSpecifiers_all_right]
    | none =>
      show mergeIndexSpecifiers (mergeIndexSpecifiers (indices la) indexNone) c
        = mergeIndexSpecifiers (indices la) (mergeIndexSpecifiers indexNone c)
      rw [mergeIndexSpecifiers_none_right, mergeIndexSpecifiers_none_left]
      by_cases hla : la = []
      · subst hla
        rw [normalizeIndexSpecifier_indices_nil]
        cases c with
        | all =>
          show mergeIndexSpecifiers indexNone indexAll
            = mergeIndexSpecifiers (indices []) (normalizeIndexSpecifier indexAll)
          rw [normalizeIndexSpecifier_all, mergeIndexSpecifiers_all_right,
            mergeIndexSpecifiers_all_right]
        | none =>
          show mergeIndexSpecifiers indexNone indexNone
            = mergeIndexSpecifiers (indices []) (normalizeIndexSpecifier indexNone)
          rw [normalizeIndexSpecifier_none, mergeIndexSpecifiers_none_right,
            mergeIndexSpecifiers_none_right, normalizeIndexSpecifier_none,
            normalizeIndexSpecifier_indices_nil]
        | indices lc =>
          have hcnd : (lc.map keyToProp).Nodup := hc
          have hcp : forall k, k ∈ lc → keyToProp k ∉ objectPrototypeProps := hnpc
          show mergeIndexSpecifiers indexNone (indices lc)
            = mergeIndexSpecifiers (indices []) (normalizeIndexSpecifier (indices lc))
          rw [mergeIndexSpecifiers_none_left]
          by_cases hlc : lc = []
          · subst hlc
            rw [normalizeIndexSpecifier_indices_nil, mergeIndexSpecifiers_none_right,
              normalizeIndexSpecifier_indices_nil]
          · rw [normalizeIndexSpecifier_indices_of_ne_nil hlc,
              mergeIndexSpecifiers_indices, List.nil_append,
              mergeKeysGo_proto_of_nodup hcnd hcp,
              normalizeIndexSpecifier_indices_of_ne_nil hlc]
      · rw [normalizeIndexSpecifier_indices_of_ne_nil hla]
        cases c with
        | all =>
          show mergeIndexSpecifiers (indices la) indexAll
            = mergeIndexSpecifiers (indices la) (normalizeIndexSpecifier indexAll)
          rw [normalizeIndexSpecifier_all]
        | none =>
          show mergeIndexSpecifiers (indices la) indexNone
            = mergeIndexSpecifiers (indices la) (normalizeIndexSpecifier indexNone)
          rw [normalizeIndexSpecifier_none]
        | indices lc =>
          show mergeIndexSpecifiers (indices la) (indices lc)
            = mergeIndexSpecifiers (indices la) (normalizeIndexSpecifier (indices lc))
          by_cases hlc : lc = []
          · subst hlc
            rw [normalizeIndexSpecifier_indices_nil, mergeIndexSpecifiers_none_right,
              mergeIndexSpecifiers_indices, List.append_nil,
              mergeKeysGo_proto_of_nodup hand hap]
          · rw [normalizeIndexSpecifier_indices_of_ne_nil hlc]
    | indices lb =>
      have hbnd : (lb.map keyToProp).Nodup := hb
      have hbp : forall k, k ∈ lb → keyToProp k ∉ objectPrototypeProps := hnpb
      cases c with
      | all =>
        show mergeIndexSpecifiers (mergeIndexSpecifiers (indices la) (indices lb)) indexAll
          = mergeIndexSpecifiers (indices la) (mergeIndexSpecifiers (indices lb) indexAll)
        rw [mergeIndexSpecifiers_all_right, mergeIndexSpecifiers_all_right,
          mergeIndexSpecifiers_all_right]
      | none =>
        show mergeIndexSpecifiers (mergeIndexSpecifiers (indices la) (indices lb)) indexNone
          = mergeIndexSpecifiers (indices la) (mergeIndexSpecifiers (indices lb) indexNone)
        rw [mergeIndexSpecifiers_none_right, mergeIndexSpecifiers_normalized,
          mergeIndexSpecifiers_none_right]
        by_cases hlb : lb = []
        · subst hlb
          rw [normalizeIndexSpecifier_indices_nil, mergeIndexSpecifiers_none_right,
            mergeIndexSpecifiers_indices, List.append_nil,
            mergeKeysGo_proto_of_nodup hand hap]
        · rw [normalizeIndexSpecifier_indices_of_ne_nil hlb]
      | indices lc =>
        have hcnd : (lc.map keyToProp).Nodup := hc
        have hcp : forall k, k ∈ lc → keyToProp k ∉ objectPrototypeProps := hnpc
        have habp : forall k, k ∈ la ++ lb → keyToProp k ∉ objectPrototypeProps := by
          intro k hk
          rcases List.mem_append.1 hk with hk | hk
          · exact hap k hk
          · exact hbp k hk
        have hbcp : forall k, k ∈ lb ++ lc → keyToProp k ∉ objectPrototypeProps := by
          intro k hk
          rcases List.mem_append.1 hk with hk | hk
          · exact hbp k hk
          · exact hcp k hk
        show mergeIndexSpecifiers (mergeIndexSpecifiers (indices la) (indices lb)) (indices lc)
          = mergeIndexSpecifiers (indices la) (mergeIndexSpecifiers (indices lb) (indices lc))
        rw [mergeIndexSpecifiers_indices, mergeIndexSpecifiers_indices]
        by_cases hu : mergeKeysGo objectPrototypeProps (la ++ lb) = []
        · have hab := (mergeKeysGo_proto_eq_nil_iff habp).1 hu
          rcases List.append_eq_nil.1 hab with ⟨h1, h2⟩
          subst h1; subst h2
          rw [hu, normalizeIndexSpecifier_indices_nil, mergeIndexSpecifiers_none_left,
            List.nil_append]
          by_cases hlc : lc = []
          · subst hlc; rfl
          · rw [mergeKeysGo_proto_of_nodup hcnd hcp,
              normalizeIndexSpecifier_indices_of_ne_nil hlc,
              mergeIndexSpecifiers_indices, List.nil_append,
              mergeKeysGo_proto_of_nodup hcnd hcp,
              normalizeIndexSpecifier_indices_of_ne_nil hlc]
        · rw [normalizeIndexSpecifier_indices_of_ne_nil hu, mergeIndexSpecifiers_indices,
            mergeKeysGo_append_dedup_left, List.append_assoc]
          by_cases hv : mergeKeysGo objectPrototypeProps (lb ++ lc) = []
          · have hbc := (mergeKeysGo_proto_eq_nil_iff hbcp).1 hv
            rcases List.append_eq_nil.1 hbc with ⟨h1, h2⟩
            subst h1; subst h2
            rw [List.nil_append, List.append_nil,
              show mergeKeysGo objectPrototypeProps ([] : List Key) = [] from rfl,
              normalizeIndexSpecifier_indices_nil, mergeIndexSpecifiers_none_right,
              mergeKeysGo_proto_of_nodup hand hap]
          · rw [normalizeIndexSpecifier_indices_of_ne_nil hv, mergeIndexSpecifiers_indices,
              mergeKeysGo_append_dedup_right]

/-! ### Claim C3 -/

/-- C3, counterexamples to the claim as stated: with keys `1` (number) and
`"1"` (string) the two merge orders keep different keys, so merge is not
commutative up to key order; with a duplicated key list (which `merge` does
not deduplicate when the other side is `None`) associativity and idempotence
fail; merging two empty `Indices` lists yields `None`, not `Indices([])`;
and a key naming an `Object.prototype` member is swallowed by the prototype
chain of the bookkeeping object, so idempotence and associativity also fail
at the duplicate-free specifier `Indices(["toString"])`. -/
theorem C3_counterexample :
    ¬ sameUpToKeyOrder
        (mergeIndexSpecifiers (indices [Key.num 1]) (indices [Key.str ("1")]))
        (mergeIndexSpecifiers (indices [Key.str ("1")]) (indices [Key.num 1]))
    ∧ mergeIndexSpecifiers (mergeIndexSpecifiers indexNone (indices []))
        (indices [Key.num 1, Key.num 1])
        ≠ mergeIndexSpecifiers indexNone
            (mergeIndexSpecifiers (indices []) (indices [Key.num 1, Key.num 1]))
    ∧ mergeIndexSpecifiers (indices [Key.num 1, Key.num 1])
        (indices [Key.num 1, Key.num 1])
        ≠ normalizeIndexSpecifier (indices [Key.num 1, Key.num 1])
    ∧ mergeIndexSpecifiers (indices []) (indices []) ≠ indices []
    ∧ mergeIndexSpecifiers (indices [Key.str ("toString")])
        (indices [Key.str ("toString")])
        ≠ normalizeIndexSpecifier (indices [Key.str ("toString")])
    ∧ mergeIndexSpecifiers (mergeIndexSpecifiers indexNone (indices []))
        (indices [Key.str ("toString")])
        ≠ mergeIndexSpecifiers indexNone
            (mergeIndexSpecifiers (indices []) (indices [Key.str ("toString")])) := by
  decide

/-- C3 (amended): for index specifiers whose key lists are duplicate-free
under property-name coercion and name no `Object.prototype` member, `merge`
is commutative up to the order of keys with keys identified by their
property name, associative, and idempotent (`merge(a, a) = normalize(a)`);
`All` is absorbing; `None` is the identity up to normalization; and for
arbitrary key lists, `merge(Indices(a), Indices(b))` is the normalization of
`Indices` of the concatenation `a ++ b` deduplicated by property name —
dropping keys whose property name is an `Object.prototype` member, and
keeping the first occurrence of every other property name in order of first
appearance across `a` then `b`. -/
theorem C3_merge_algebra (a b c : IndexSpecifier) (la lb : List Key)
    (ha : specDupFree a) (hb : specDupFree b) (hc : specDupFree c)
    (hnpa : specNoProto a) (hnpb : specNoProto b) (hnpc : specNoProto c) :
    sameUpToKeyProp (mergeIndexSpecifiers a b) (mergeIndexSpecifiers b a)
    ∧ mergeIndexSpecifiers (mergeIndexSpecifiers a b) c
        = mergeIndexSpecifiers a (mergeIndexSpecifiers b c)
    ∧ mergeIndexSpecifiers a a = normalizeIndexSpecifier a
    ∧ mergeIndexSpecifiers indexAll a = indexAll
    ∧ mergeIndexSpecifiers indexNone a = normalizeIndexSpecifier a
    ∧ mergeIndexSpecifiers (indices la) (indices lb)
        = normalizeIndexSpecifier (indices (dedupProp (la ++ lb))) :=
  ⟨mergeIndexSpecifiers_comm_prop a b,
   mergeIndexSpecifiers_assoc a b c ha hb hc hnpa hnpb hnpc,
   mergeIndexSpecifiers_self a ha hnpa,
   mergeIndexSpecifiers_all_left a,
   mergeIndexSpecifiers_none_left a,
   by rw [dedupProp_eq_mergeKeysGo]; exact mergeIndexSpecifiers_indices la lb⟩

/-- Witness for C3 at concrete duplicate-free specifiers that avoid the
`Object.prototype` member names. -/
theorem C3_merge_algebra_witness :
    specDupFree (indices [Key.num 1, Key.str ("x")])
    ∧ specNoProto (indices [Key.num 1, Key.str ("x")])
    ∧ mergeIndexSpecifiers (indices [Key.num 1, Key.str ("x")])
        (indices [Key.num 1, Key.str ("x")])
      = normalizeIndexSpecifier (indices [Key.num 1, Key.str ("x")]) :=
  ⟨by decide, by decide,
   (C3_merge_algebra (indices [Key.num 1, Key.str ("x")]) indexAll indexNone [] []
     (by decide) (by decide) (by decide) (by decide) (by decide) (by decide)).2.2.1⟩

/-! ### Claim C10 -/

/-- C10 is false as stated: a key whose property name names an
`Object.prototype` member is dropped outright by the merge loop — its first
occurrence is NOT kept — because the lookup `!merged[index]` on the `{}`
bookkeeping object reads truthy through the prototype chain.  Merging
`Indices(["toString"])` with `Indices([])` yields `None` in the program,
not a result keeping the first occurrence of `"toString"`. -/
theorem C10_counterexample :
    mergeIndexSpecifiers (indices [Key.str ("toString")]) (indices []) = indexNone
    ∧ indexNone ≠ indices [Key.str ("toString")] := by
  decide

/-- C10 (amended): when both arguments to `merge` are `Indices`,
deduplication works through the property-name coercion of keys on the `{}`
bookkeeping object: a key whose property name is an `Object.prototype`
member always reads as already merged and is dropped entirely; among the
remaining keys, keys with one property name — such as the number `1` and the
string `"1"` — are treated as one key and only the first occurrence across
the first then the second argument is kept, in order (the result is then
normalized). -/
theorem C10_dedup_by_property_name :
    (∀ la lb : List Key,
      mergeIndexSpecifiers (indices la) (indices lb)
        = normalizeIndexSpecifier (indices (dedupProp (la ++ lb))))
    ∧ mergeIndexSpecifiers (indices [Key.num 1]) (indices [Key.str ("1")])
        = indices [Key.num 1]
    ∧ mergeIndexSpecifiers (indices [Key.str ("1")]) (indices [Key.num 1])
        = indices [Key.str ("1")]
    ∧ mergeIndexSpecifiers (indices [Key.str ("toString"), Key.num 1]) (indices [])
        = indices [Key.num 1] := by
  refine ⟨?_, by decide, by decide, by decide⟩
  intro la lb
  rw [dedupProp_eq_mergeKeysGo]
  exact mergeIndexSpecifiers_indices la lb

/-! ### Lemmas about the automatic channel getter -/

theorem indexEmpty_indices_false {ks : List Key} (h : ks ≠ []) :
    indexEmpty (IndexSpecifier.indices ks) = false := by
  simp [indexEmpty, List.length_eq_zero, h]

theorem autoRead_empty {ι α ε : Type} (i : ι) (uF : ι → Except ε α)
    (uIF : Option (ι → Option α → Key → Except ε (Option α))) (st : AutoState α)
    (h : indexEmpty st.dirty = true) :
    autoRead i uF uIF st = ⟨st, Except.ok st.cachedData, false, 0, []⟩ := by
  rw [autoRead, if_pos h]

theorem autoRead_full_ok {ι α ε : Type} (i : ι) (uF : ι → Except ε α)
    (uIF : Option (ι → Option α → Key → Except ε (Option α)))
    (d : IndexSpecifier) (c : Option α) (v : α)
    (hd : indexEmpty d = false) (hfull : d = indexAll ∨ uIF = Option.none)
    (hv : uF i = Except.ok v) :
    autoRead i uF uIF ⟨d, c⟩
      = ⟨⟨indexNone, Option.some v⟩, Except.ok (Option.some v), true, 1, []⟩ := by
  rw [autoRead, if_neg (by simp [hd])]
  cases d with
  | all => cases uIF <;> simp [autoReadDirty, autoReadFull, hv]
  | none => simp [indexEmpty] at hd
  | indices ks =>
    rcases hfull with hfull | hfull
    · exact absurd hfull (by simp [indexAll])
    · subst hfull
      simp [autoReadDirty, autoReadFull, hv]

theorem autoRead_full_error {ι α ε : Type} (i : ι) (uF : ι → Except ε α)
    (uIF : Option (ι → Option α → Key → Except ε (Option α)))
    (d : IndexSpecifier) (c : Option α) (e : ε)
    (hd : indexEmpty d = false) (hfull : d = indexAll ∨ uIF = Option.none)
    (hv : uF i = Except.error e) :
    autoRead i uF uIF ⟨d, c⟩ = ⟨⟨d, c⟩, Except.error e, true, 1, []⟩ := by
  rw [autoRead, if_neg (by simp [hd])]
  cases d with
  | all => cases uIF <;> simp [autoReadDirty, autoReadFull, hv]
  | none => simp [indexEmpty] at hd
  | indices ks =>
    rcases hfull with hfull | hfull
    · exact absurd hfull (by simp [indexAll])
    · subst hfull
      simp [autoReadDirty, autoReadFull, hv]

theorem runIndexUpdates_keys_of_ok {α ε : Type} (f : Option α → Key → Except ε (Option α)) :
    ∀ (ks : List Key) (c : Option α),
      (runIndexUpdates f ks c).2.2 = Option.none →
      (runIndexUpdates f ks c).2.1 = ks := by
  intro ks
  induction ks with
  | nil => intro c _; rfl
  | cons k ks ih =>
    intro c h
    rw [runIndexUpdates] at h ⊢
    cases hf : f c k with
    | error e =>
      rw [hf] at h
      simp at h
    | ok c2 =>
      rw [hf] at h
      have h2 : (runIndexUpdates f ks c2).2.2 = Option.none := h
      show k :: (runIndexUpdates f ks c2).2.1 = k :: ks
      exact congrArg _ (ih c2 h2)

theorem autoRead_at_ok {ι α ε : Type} (i : ι) (uF : ι → Except ε α)
    (f : ι → Option α → Key → Except ε (Option α)) (ks : List Key) (c : Option α)
    (hne : ks ≠ []) (hr : (runIndexUpdates (f i) ks c).2.2 = Option.none) :
    autoRead i uF (Option.some f) ⟨IndexSpecifier.indices ks, c⟩
      = ⟨⟨indexNone, (runIndexUpdates (f i) ks c).1⟩,
         Except.ok (runIndexUpdates (f i) ks c).1, true, 0, ks⟩ := by
  rw [autoRead, if_neg (by simp [indexEmpty_indices_false hne])]
  simp only [autoReadDirty, hr, runIndexUpdates_keys_of_ok (f i) ks c hr]

theorem autoRead_at_error {ι α ε : Type} (i : ι) (uF : ι → Except ε α)
    (f : ι → Option α → Key → Except ε (Option α)) (ks : List Key) (c : Option α) (e : ε)
    (hne : ks ≠ []) (hr : (runIndexUpdates (f i) ks c).2.2 = Option.some e) :
    autoRead i uF (Option.some f) ⟨IndexSpecifier.indices ks, c⟩
      = ⟨⟨IndexSpecifier.indices ks, (runIndexUpdates (f i) ks c).1⟩,
         Except.error e, true, 0, (runIndexUpdates (f i) ks c).2.1⟩ := by
  rw [autoRead, if_neg (by simp [indexEmpty_indices_false hne])]
  simp only [autoReadDirty, hr]

theorem autoRead_pulled {ι α ε : Type} (i : ι) (uF : ι → Except ε α)
    (uIF : Option (ι → Option α → Key → Except ε (Option α))) (st : AutoState α)
    (h : indexEmpty st.dirty = false) : (autoRead i uF uIF st).pulled = true := by
  obtain ⟨d, c⟩ := st
  cases d with
  | none => simp [indexEmpty] at h
  | all =>
    cases hv : uF i with
    | error e =>
      rw [autoRead_full_error i uF uIF IndexSpecifier.all c e h (Or.inl rfl) hv]
    | ok v =>
      rw [autoRead_full_ok i uF uIF IndexSpecifier.all c v h (Or.inl rfl) hv]
  | indices ks =>
    have hne : ks ≠ [] := by
      intro hc; subst hc; simp [indexEmpty] at h
    cases uIF with
    | none =>
      cases hv : uF i with
      | error e =>
        rw [autoRead_full_error i uF Option.none (IndexSpecifier.indices ks) c e h
          (Or.inr rfl) hv]
      | ok v =>
        rw [autoRead_full_ok i uF Option.none (IndexSpecifier.indices ks) c v h
          (Or.inr rfl) hv]
    | some f =>
      cases hr : (runIndexUpdates (f i) ks c).2.2 with
      | none => rw [autoRead_at_ok i uF f ks c hne hr]
      | some e => rw [autoRead_at_error i uF f ks c e hne hr]

theorem autoRead_dirty_of_ok {ι α ε : Type} (i : ι) (uF : ι → Except ε α)
    (uIF : Option (ι → Option α → Key → Except ε (Option α))) (st : AutoState α)
    (v : Option α)
    (h : (autoRead i uF uIF st).result = Except.ok v) :
    indexEmpty (autoRead i uF uIF st).state.dirty = true := by
  obtain ⟨d, c⟩ := st
  by_cases hd : indexEmpty d = true
  · rw [autoRead_empty i uF uIF ⟨d, c⟩ hd]
    exact hd
  · have hd2 : indexEmpty d = false := by
      revert hd; cases indexEmpty d <;> simp
    cases d with
    | none => simp [indexEmpty] at hd2
    | all =>
      cases hv : uF i with
      | error e =>
        rw [autoRead_full_error i uF uIF IndexSpecifier.all c e hd2 (Or.inl rfl) hv] at h
        simp at h
      | ok w =>
        rw [autoRead_full_ok i uF uIF IndexSpecifier.all c w hd2 (Or.inl rfl) hv]
        rfl
    | indices ks =>
      have hne : ks ≠ [] := by
        intro hc; subst hc; simp [indexEmpty] at hd2
      cases uIF with
      | none =>
        cases hv : uF i with
        | error e =>
          rw [autoRead_full_error i uF Option.none (IndexSpecifier.indices ks) c e hd2
            (Or.inr rfl) hv] at h
          simp at h
        | ok w =>
          rw [autoRead_full_ok i uF Option.none (IndexSpecifier.indices ks) c w hd2
            (Or.inr rfl) hv]
          rfl
      | some f =>
        cases hr : (runIndexUpdates (f i) ks c).2.2 with
        | some e =>
          rw [autoRead_at_error i uF f ks c e hne hr] at h
          simp at h
        | none =>
          rw [autoRead_at_ok i uF f ks c hne hr]
          rfl

/-! ### Claim C2 -/

/-- C2: the derived-channel read algorithm.  With an empty dirty specifier
the cached value is returned with no input pull and no update call (so a
repeated read after a successful read does no work, the final conjunct);
with a non-empty dirty specifier the inputs are pulled, and if dirty is an
`Indices` list and an `updateIndexFunction` is provided, that function is
invoked exactly once per dirty key in order — never the full update — the
cache is the result of those in-place updates, dirty becomes `None` and the
cache is returned; in every other non-empty case the full update runs
exactly once and its value replaces the cache, dirty becomes `None` and the
new cache is returned. -/
theorem C2_read_algorithm {ι α ε : Type} (incomingData : ι)
    (updateFunction : ι → Except ε α)
    (updateIndexFunction : Option (ι → Option α → Key → Except ε (Option α)))
    (st : AutoState α) :
    (indexEmpty st.dirty = true →
      autoRead incomingData updateFunction updateIndexFunction st
        = ⟨st, Except.ok st.cachedData, false, 0, []⟩)
    ∧ (indexEmpty st.dirty = false →
      (autoRead incomingData updateFunction updateIndexFunction st).pulled = true)
    ∧ (∀ (ks : List Key) (f : ι → Option α → Key → Except ε (Option α)),
      st.dirty = IndexSpecifier.indices ks → ks ≠ [] →
      updateIndexFunction = Option.some f →
      (runIndexUpdates (f incomingData) ks st.cachedData).2.2 = Option.none →
      autoRead incomingData updateFunction updateIndexFunction st
        = ⟨⟨indexNone, (runIndexUpdates (f incomingData) ks st.cachedData).1⟩,
           Except.ok (runIndexUpdates (f incomingData) ks st.cachedData).1,
           true, 0, ks⟩)
    ∧ (∀ v : α, indexEmpty st.dirty = false →
      (st.dirty = indexAll ∨ updateIndexFunction = Option.none) →
      updateFunction incomingData = Except.ok v →
      autoRead incomingData updateFunction updateIndexFunction st
        = ⟨⟨indexNone, Option.some v⟩, Except.ok (Option.some v), true, 1, []⟩)
    ∧ (∀ (v : Option α) (incomingData2 : ι) (updateFunction2 : ι → Except ε α)
        (updateIndexFunction2 : Option (ι → Option α → Key → Except ε (Option α))),
      (autoRead incomingData updateFunction updateIndexFunction st).result = Except.ok v →
      autoRead incomingData2 updateFunction2 updateIndexFunction2
          (autoRead incomingData updateFunction updateIndexFunction st).state
        = ⟨(autoRead incomingData updateFunction updateIndexFunction st).state,
           Except.ok
             (autoRead incomingData updateFunction updateIndexFunction st).state.cachedData,
           false, 0, []⟩) := by
  refine ⟨?_, ?_, ?_, ?_, ?_⟩
  · intro h
    exact autoRead_empty incomingData updateFunction updateIndexFunction st h
  · intro h
    exact autoRead_pulled incomingData updateFunction updateIndexFunction st h
  · intro ks f hd hne hf hr
    obtain ⟨d, c⟩ := st
    have hd2 : d = IndexSpecifier.indices ks := hd
    subst hd2
    subst hf
    exact autoRead_at_ok incomingData updateFunction f ks c hne hr
  · intro v h hfull hv
    obtain ⟨d, c⟩ := st
    exact autoRead_full_ok incomingData updateFunction updateIndexFunction d c v h hfull hv
  · intro v i2 u2 ui2 hok
    exact autoRead_empty i2 u2 ui2 _
      (autoRead_dirty_of_ok incomingData updateFunction updateIndexFunction st v hok)

/-- Witness for C2 on the fine-grained path: one dirty key, an
`updateIndexFunction` present, no exception. -/
theorem C2_read_algorithm_witness :
    autoRead 3 (fun n => (Except.ok (n + 1) : Except Unit Nat))
        (Option.some (fun _ _ _ => Except.ok (Option.some 9)))
        ⟨IndexSpecifier.indices [Key.num 0], Option.some 7⟩
      = ⟨⟨indexNone, Option.some 9⟩, Except.ok (Option.some 9), true, 0, [Key.num 0]⟩ :=
  (C2_read_algorithm 3 (fun n => (Except.ok (n + 1) : Except Unit Nat))
      (Option.some (fun _ _ _ => Except.ok (Option.some 9)))
      ⟨IndexSpecifier.indices [Key.num 0], Option.some 7⟩).2.2.1
    [Key.num 0] (fun _ _ _ => Except.ok (Option.some 9)) rfl (by decide) rfl rfl

/-! ### Claim C6 -/

/-- C6: if a user update function throws during a read, the exception
propagates to the caller (the read evaluates to that error), the dirty
specifier is exactly what it was before the read began — which was
non-empty — and therefore a later read pulls the inputs and retries the
recompute. -/
theorem C6_error_preserves_dirty {ι α ε : Type} (incomingData : ι)
    (updateFunction : ι → Except ε α)
    (updateIndexFunction : Option (ι → Option α → Key → Except ε (Option α)))
    (st : AutoState α) (e : ε)
    (h : (autoRead incomingData updateFunction updateIndexFunction st).result
        = Except.error e) :
    (autoRead incomingData updateFunction updateIndexFunction st).state.dirty = st.dirty
    ∧ indexEmpty st.dirty = false
    ∧ (∀ (i2 : ι) (uF2 : ι → Except ε α)
        (uIF2 : Option (ι → Option α → Key → Except ε (Option α))),
      (autoRead i2 uF2 uIF2
        (autoRead incomingData updateFunction updateIndexFunction st).state).pulled
        = true) := by
  obtain ⟨d, c⟩ := st
  by_cases hd : indexEmpty d = true
  · rw [autoRead_empty incomingData updateFunction updateIndexFunction ⟨d, c⟩ hd] at h
    simp at h
  · have hd2 : indexEmpty d = false := by
      revert hd; cases indexEmpty d <;> simp
    have key : (autoRead incomingData updateFunction updateIndexFunction
        ⟨d, c⟩).state.dirty = d := by
      cases d with
      | none => simp [indexEmpty] at hd2
      | all =>
        cases hv : updateFunction incomingData with
        | error e2 =>
          rw [autoRead_full_error incomingData updateFunction updateIndexFunction
            IndexSpecifier.all c e2 hd2 (Or.inl rfl) hv]
        | ok w =>
          rw [autoRead_full_ok incomingData updateFunction updateIndexFunction
            IndexSpecifier.all c w hd2 (Or.inl rfl) hv] at h
          simp at h
      | indices ks =>
        have hne : ks ≠ [] := by
          intro hc; subst hc; simp [indexEmpty] at hd2
        cases updateIndexFunction with
        | none =>
          cases hv : updateFunction incomingData with
          | error e2 =>
            rw [autoRead_full_error incomingData updateFunction Option.none
              (IndexSpecifier.indices ks) c e2 hd2 (Or.inr rfl) hv]
          | ok w =>
            rw [autoRead_full_ok incomingData updateFunction Option.none
              (IndexSpecifier.indices ks) c w hd2 (Or.inr rfl) hv] at h
            simp at h
        | some f =>
          cases hr : (runIndexUpdates (f incomingData) ks c).2.2 with
          | some e2 =>
            rw [autoRead_at_error incomingData updateFunction f ks c e2 hne hr]
          | none =>
            rw [autoRead_at_ok incomingData updateFunction f ks c hne hr] at h
            simp at h
    refine ⟨key, hd2, ?_⟩
    intro i2 u2 ui2
    refine autoRead_pulled i2 u2 ui2 _ ?_
    rw [key]
    exact hd2

/-- Witness for C6: a full update that throws on an all-dirty channel leaves
the dirty specifier `All`. -/
theorem C6_error_preserves_dirty_witness :
    (autoRead 0 (fun _ => (Except.error () : Except Unit Nat)) Option.none
        ⟨IndexSpecifier.all, Option.none⟩).result = Except.error ()
    ∧ (autoRead 0 (fun _ => (Except.error () : Except Unit Nat)) Option.none
        ⟨IndexSpecifier.all, Option.none⟩).state.dirty = IndexSpecifier.all :=
  ⟨rfl,
   (C6_error_preserves_dirty 0 (fun _ => (Except.error () : Except Unit Nat)) Option.none
     ⟨IndexSpecifier.all, Option.none⟩ () rfl).1⟩

/-! ### Unfolding lemmas for the two-node source-and-derived system -/

theorem Sys1.write_eager_false {α β ε : Type} (uF : α → Except ε β)
    (uIF : Option (α → Option β → Key → Except ε (Option β)))
    (sd : α) (cn : IndexSpecifier → IndexSpecifier) (dd : IndexSpecifier)
    (dc : Option β) (x : α) :
    Sys1.write uF uIF ⟨sd, cn, ⟨dd, dc⟩, false⟩ x
      = (⟨x, cn, ⟨mergeIndexSpecifiers dd (cn indexAll), dc⟩, false⟩, Option.none) := rfl

theorem Sys1.write_eager_true {α β ε : Type} (uF : α → Except ε β)
    (uIF : Option (α → Option β → Key → Except ε (Option β)))
    (sd : α) (cn : IndexSpecifier → IndexSpecifier) (dd : IndexSpecifier)
    (dc : Option β) (x : α) :
    Sys1.write uF uIF ⟨sd, cn, ⟨dd, dc⟩, true⟩ x
      = (⟨x, cn,
          (autoRead x uF uIF ⟨mergeIndexSpecifiers dd (cn indexAll), dc⟩).state, true⟩,
         Option.some (autoRead x uF uIF ⟨mergeIndexSpecifiers dd (cn indexAll), dc⟩)) := rfl

theorem Sys1.readD_eq {α β ε : Type} (uF : α → Except ε β)
    (uIF : Option (α → Option β → Key → Except ε (Option β)))
    (sd : α) (cn : IndexSpecifier → IndexSpecifier) (dst : AutoState β) (eg : Bool) :
    Sys1.readD uF uIF ⟨sd, cn, dst, eg⟩
      = (⟨sd, cn, (autoRead sd uF uIF dst).state, eg⟩, autoRead sd uF uIF dst) := rfl

theorem Sys1.insertAt_eager_false {γ β ε : Type} (uF : List γ → Except ε β)
    (uIF : Option (List γ → Option β → Key → Except ε (Option β)))
    (sd : List γ) (cn : IndexSpecifier → IndexSpecifier) (dd : IndexSpecifier)
    (dc : Option β) (i : Nat) (v : γ) :
    Sys1.insertAt uF uIF ⟨sd, cn, ⟨dd, dc⟩, false⟩ i v
      = (⟨sd.take i ++ v :: sd.drop i, cn,
          ⟨mergeIndexSpecifiers dd
            (cn (indices ((range i (sd.take i ++ v :: sd.drop i).length).map Key.num))),
           dc⟩, false⟩, Option.none) := rfl

/-! ### Claim C1 -/

/-- C1: for a derived channel built from the single input list `[s]` with
compute `f` (so its connector is the constructor default, which always
returns `indexAll`), a read that follows `s.write(x)` returns `f(x)`,
whatever the prior dirty state, cache, eager flag, or optional
`updateIndexFunction`. -/
theorem C1_write_then_read {α β ε : Type} (f : α → β)
    (uIF : Option (α → Option β → Key → Except ε (Option β)))
    (st : Sys1 α β) (x : α)
    (hconn : st.conn = fun _ => indexAll) :
    ((Sys1.readD (fun a => Except.ok (f a)) uIF
        (Sys1.write (fun a => Except.ok (f a)) uIF st x).1).2).result
      = Except.ok (Option.some (f x)) := by
  obtain ⟨sd, cn, ⟨dd, dc⟩, eg⟩ := st
  have hc : cn = fun _ => indexAll := hconn
  subst hc
  cases eg with
  | false =>
    rw [Sys1.write_eager_false, Sys1.readD_eq]
    simp only [mergeIndexSpecifiers_all_right]
    rw [autoRead_full_ok x (fun a => Except.ok (f a)) uIF indexAll dc (f x) rfl
      (Or.inl rfl) rfl]
  | true =>
    rw [Sys1.write_eager_true, Sys1.readD_eq]
    simp only [mergeIndexSpecifiers_all_right]
    rw [autoRead_full_ok x (fun a => Except.ok (f a)) uIF indexAll dc (f x) rfl
      (Or.inl rfl) rfl]
    rw [autoRead_empty x (fun a => Except.ok (f a)) uIF ⟨indexNone, Option.some (f x)⟩ rfl]

/-- Witness for C1: a concrete source written to 5 with compute `a + 1`. -/
theorem C1_write_then_read_witness :
    ((Sys1.readD (fun a => (Except.ok (a + 1) : Except Unit Nat)) Option.none
        (Sys1.write (fun a => (Except.ok (a + 1) : Except Unit Nat)) Option.none
          ⟨0, fun _ => indexAll, ⟨indexNone, Option.none⟩, false⟩ 5).1).2).result
      = Except.ok (Option.some 6) :=
  C1_write_then_read (fun a => a + 1) Option.none
    ⟨0, fun _ => indexAll, ⟨indexNone, Option.none⟩, false⟩ 5 rfl

/-! ### Claim C7 -/

/-- C7 is false as stated for an arbitrary eager downstream channel: with a
custom edge connector that maps the write's region to `None`, the region
merged into a clean eager channel is empty, so its self-read takes the
cached fast path and the write returns without ever invoking the compute
(zero compute calls; the stale cache `7`, not `f 5`, remains). -/
theorem C7_counterexample :
    (Sys1.write (fun a => (Except.ok (a + 1) : Except Unit Nat)) Option.none
        ⟨3, fun _ => indexNone, ⟨indexNone, Option.some 7⟩, true⟩ 5).2.map
        (fun out => (out.updateCalls, out.result))
      = Option.some (0, Except.ok (Option.some 7))
    ∧ (Sys1.write (fun a => (Except.ok (a + 1) : Except Unit Nat)) Option.none
        ⟨3, fun _ => indexNone, ⟨indexNone, Option.some 7⟩, true⟩ 5).1.dState.cachedData
      = Option.some 7
    ∧ (7 : Nat) ≠ 5 + 1 :=
  ⟨rfl, rfl, by decide⟩

/-- C7 (amended): in a `markDirty` traversal the eager self-read event comes
strictly after the entire downstream propagation (it is the last event of
the traversal trace); and for an eager derived channel downstream of a
source through the default all-region connector (as `derive` builds it),
`write(x)` synchronously runs the full compute exactly once before
returning, leaving `f x` cached and the channel clean.  The restriction to
the default connector is necessary: a custom connector that maps the
written region to an empty region leaves a clean eager channel untouched
and the compute never runs. -/
theorem C7_eager_read_ordering {α β ε : Type} (f : α → β)
    (uIF : Option (α → Option β → Key → Except ε (Option β)))
    (st : Sys1 α β) (x : α)
    (heager : st.dEager = true) (hconn : st.conn = fun _ => indexAll) :
    (∀ (id : Nat) (edges : List ((IndexSpecifier → IndexSpecifier) × ChanTree))
        (region : IndexSpecifier),
      markDirtyTrace (ChanTree.node id true edges) region
        = DirtyEv.marked id region ::
            (markDirtyTraceEdges edges region ++ [DirtyEv.readSelf id]))
    ∧ (Sys1.write (fun a => Except.ok (f a)) uIF st x).2.map
          (fun out => (out.updateCalls, out.result))
        = Option.some (1, Except.ok (Option.some (f x)))
    ∧ (Sys1.write (fun a => Except.ok (f a)) uIF st x).1.dState
        = ⟨indexNone, Option.some (f x)⟩ := by
  refine ⟨?_, ?_⟩
  · intro id edges region
    simp [markDirtyTrace]
  · obtain ⟨sd, cn, ⟨dd, dc⟩, eg⟩ := st
    have hc : cn = fun _ => indexAll := hconn
    subst hc
    have he : eg = true := heager
    subst he
    rw [Sys1.write_eager_true]
    simp only [mergeIndexSpecifiers_all_right]
    rw [autoRead_full_ok x (fun a => Except.ok (f a)) uIF indexAll dc (f x) rfl
      (Or.inl rfl) rfl]
    exact ⟨rfl, rfl⟩

/-- Witness for C7 on a concrete eager channel: the write itself performs
the compute. -/
theorem C7_eager_read_ordering_witness :
    (Sys1.write (fun a => (Except.ok (a + 1) : Except Unit Nat)) Option.none
        ⟨3, fun _ => indexAll, ⟨indexNone, Option.none⟩, true⟩ 5).2.map
        (fun out => (out.updateCalls, out.result))
      = Option.some (1, Except.ok (Option.some 6)) :=
  (C7_eager_read_ordering (fun a => a + 1) Option.none
    ⟨3, fun _ => indexAll, ⟨indexNone, Option.none⟩, true⟩ 5 rfl rfl).2.1

/-! ### Claim C5 -/

theorem runMapUpdates_ok {γ β : Type} (fn : γ → β) (inp : List γ) :
    ∀ (ks : List Key) (cs : List β),
      (∀ k ∈ ks, ∃ n : Nat, k = Key.num n ∧ n < inp.length) →
      (runIndexUpdates (mapUpdateAt fn inp) ks (Option.some cs)).2.2 = Option.none
      ∧ (runIndexUpdates (mapUpdateAt fn inp) ks (Option.some cs)).2.1 = ks := by
  intro ks
  induction ks with
  | nil => intro cs _; exact ⟨rfl, rfl⟩
  | cons k ks ih =>
    intro cs hk
    rcases hk k (List.mem_cons_self _ _) with ⟨n, hkn, hlt⟩
    subst hkn
    have hget : inp[n]? = Option.some (inp.get ⟨n, hlt⟩) := by
      rw [List.getElem?_eq_getElem hlt]
      rfl
    have happ : mapUpdateAt fn inp (Option.some cs) (Key.num n)
        = Except.ok (Option.some (jsArraySet cs n (fn (inp.get ⟨n, hlt⟩)))) := by
      simp [mapUpdateAt, hget]
    rw [runIndexUpdates, happ]
    have hrest := ih (jsArraySet cs n (fn (inp.get ⟨n, hlt⟩)))
      (fun k2 hk2 => hk k2 (List.mem_cons_of_mem _ hk2))
    refine ⟨hrest.1, ?_⟩
    show Key.num n ::
        (runIndexUpdates (mapUpdateAt fn inp) ks
          (Option.some (jsArraySet cs n (fn (inp.get ⟨n, hlt⟩))))).2.1
      = Key.num n :: ks
    exact congrArg _ hrest.2

/-- C5 is false as stated: on a freshly constructed map channel (dirty is
still `All` from construction) an insert is followed by a full recompute,
with zero per-index updates. -/
theorem C5_counterexample :
    ((Sys1.readD (mapCompute (fun x : Nat => x + 1))
        (Option.some (mapUpdateAt (fun x : Nat => x + 1)))
        (Sys1.insertAt (mapCompute (fun x : Nat => x + 1))
          (Option.some (mapUpdateAt (fun x : Nat => x + 1)))
          ⟨[1], fun r => r, ⟨indexAll, Option.none⟩, false⟩ 0 5).1).2).updateCalls = 1
    ∧ ((Sys1.readD (mapCompute (fun x : Nat => x + 1))
        (Option.some (mapUpdateAt (fun x : Nat => x + 1)))
        (Sys1.insertAt (mapCompute (fun x : Nat => x + 1))
          (Option.some (mapUpdateAt (fun x : Nat => x + 1)))
          ⟨[1], fun r => r, ⟨indexAll, Option.none⟩, false⟩ 0 5).1).2).updateIndexKeys
      = [] := ⟨rfl, rfl⟩

/-- C5 (amended): for a sequence source of length `n` with a map-derived
channel that is clean (dirty `None`, cache present, as after a successful
read), `insert(i, v)` with `i ≤ n` followed by a read invokes the per-index
update exactly once for each position `i, ..., n` in order — `n - i + 1`
invocations — and never the full compute. -/
theorem C5_insert_fine_grained {γ β : Type} (fn : γ → β) (st : Sys1 (List γ) (List β))
    (i : Nat) (v : γ) (n : Nat) (cs : List β)
    (hconn : st.conn = fun r => r) (heager : st.dEager = false)
    (hdirty : st.dState.dirty = indexNone)
    (hcache : st.dState.cachedData = Option.some cs)
    (hn : st.srcData.length = n) (hi : i ≤ n) :
    ((Sys1.readD (mapCompute fn) (Option.some (mapUpdateAt fn))
        (Sys1.insertAt (mapCompute fn) (Option.some (mapUpdateAt fn)) st i v).1).2).updateIndexKeys
      = (range i (n + 1)).map Key.num
    ∧ ((range i (n + 1)).map Key.num).length = n - i + 1
    ∧ ((Sys1.readD (mapCompute fn) (Option.some (mapUpdateAt fn))
        (Sys1.insertAt (mapCompute fn) (Option.some (mapUpdateAt fn)) st i v).1).2).updateCalls
      = 0 := by
  obtain ⟨sd, cn, ⟨dd, dc⟩, eg⟩ := st
  have hc : cn = fun r => r := hconn
  subst hc
  have he : eg = false := heager
  subst he
  have hd : dd = indexNone := hdirty
  subst hd
  have hcc : dc = Option.some cs := hcache
  subst hcc
  have hn2 : sd.length = n := hn
  rw [Sys1.insertAt_eager_false, Sys1.readD_eq]
  have hlen : (sd.take i ++ v :: sd.drop i).length = sd.length + 1 := by
    simp only [List.length_append, List.length_take, List.length_cons, List.length_drop]
    omega
  rw [hlen, hn2]
  have hrangelen : (range i (n + 1)).length = n + 1 - i := by
    rw [range, List.length_range']
  have hne : (range i (n + 1)).map Key.num ≠ [] := by
    intro hcon
    have hz : ((range i (n + 1)).map Key.num).length = 0 := by rw [hcon]; rfl
    rw [List.length_map, hrangelen] at hz
    omega
  rw [mergeIndexSpecifiers_none_left,
    normalizeIndexSpecifier_indices_of_ne_nil hne]
  have hbound : ∀ k ∈ (range i (n + 1)).map Key.num,
      ∃ m : Nat, k = Key.num m ∧ m < (sd.take i ++ v :: sd.drop i).length := by
    intro k hkm
    rcases List.mem_map.1 hkm with ⟨m, hm, hmk⟩
    refine ⟨m, hmk.symm, ?_⟩
    rw [hlen, hn2]
    rw [range] at hm
    have hmm := List.mem_range'_1.1 hm
    omega
  have hrun := runMapUpdates_ok fn (sd.take i ++ v :: sd.drop i)
    ((range i (n + 1)).map Key.num) cs hbound
  simp only [indices]
  rw [autoRead_at_ok (sd.take i ++ v :: sd.drop i) (mapCompute fn) (mapUpdateAt fn)
    ((range i (n + 1)).map Key.num) (Option.some cs) hne hrun.1]
  refine ⟨rfl, ?_, rfl⟩
  rw [List.length_map, hrangelen]
  omega

/-- Witness for C5: inserting 10 at position 2 of a clean length-4 list
marks positions 2, 3, 4 and the read performs exactly those three per-index
updates and no full compute. -/
theorem C5_insert_fine_grained_witness :
    ((Sys1.readD (mapCompute (fun x : Nat => 10 - x))
        (Option.some (mapUpdateAt (fun x : Nat => 10 - x)))
        (Sys1.insertAt (mapCompute (fun x : Nat => 10 - x))
          (Option.some (mapUpdateAt (fun x : Nat => 10 - x)))
          ⟨[1, 2, 3, 4], fun r => r,
            ⟨indexNone, Option.some [9, 8, 7, 6]⟩, false⟩ 2 10).1).2).updateIndexKeys
      = [Key.num 2, Key.num 3, Key.num 4]
    ∧ ((Sys1.readD (mapCompute (fun x : Nat => 10 - x))
        (Option.some (mapUpdateAt (fun x : Nat => 10 - x)))
        (Sys1.insertAt (mapCompute (fun x : Nat => 10 - x))
          (Option.some (mapUpdateAt (fun x : Nat => 10 - x)))
          ⟨[1, 2, 3, 4], fun r => r,
            ⟨indexNone, Option.some [9, 8, 7, 6]⟩, false⟩ 2 10).1).2).updateCalls = 0 := by
  have h := C5_insert_fine_grained (fun x : Nat => 10 - x)
    ⟨[1, 2, 3, 4], fun r => r, ⟨indexNone, Option.some [9, 8, 7, 6]⟩, false⟩
    2 10 4 [9, 8, 7, 6] rfl rfl rfl rfl rfl (by decide)
  exact ⟨by rw [h.1]; rfl, h.2.2⟩

/-! ### Claim C8 -/

/-- C8: constructing an automatic channel with an empty input list always
fails with the distinguished no-incoming-channels error, whatever the
connector map and eager flag; constructing with a non-empty input list never
raises it, and yields the documented initial state (dirty `All`,
uninitialized cache). -/
theorem C8_no_incoming_channels {χ α : Type} (incoming : List χ)
    (connectorMap : List (IndexSpecifier → IndexSpecifier)) (eager : Bool)
    (h : incoming ≠ []) :
    (∀ (cm2 : List (IndexSpecifier → IndexSpecifier)) (eg2 : Bool),
      mkAutomaticChannel ([] : List χ) cm2 eg2
        = (Except.error ChannelInitError.noIncomingChannels :
            Except ChannelInitError (AutomaticChannelInit χ α)))
    ∧ ∃ ch : AutomaticChannelInit χ α,
        mkAutomaticChannel incoming connectorMap eager = Except.ok ch
        ∧ ch.dirty = indexAll ∧ ch.cachedData = Option.none
        ∧ ch.incomingChannels = incoming := by
  constructor
  · intro cm2 eg2
    rfl
  · rw [mkAutomaticChannel, if_neg (by simp [List.length_eq_zero, h])]
    exact ⟨_, rfl, rfl, rfl, rfl⟩

/-- Witness for C8 with one incoming channel. -/
theorem C8_no_incoming_channels_witness :
    ∃ ch : AutomaticChannelInit Nat Nat,
      mkAutomaticChannel [0] [] false = Except.ok ch
      ∧ ch.dirty = indexAll ∧ ch.cachedData = Option.none
      ∧ ch.incomingChannels = [0] :=
  (C8_no_incoming_channels [0] [] false (by decide)).2

/-! ### Claim C4 -/

/-- C4, code evaluation at a failing input: a two-channel pair whose edge
connector returns a cache mutator appending 99.  After `markDirty` on the
upstream channel, the mutator has been applied to the UPSTREAM cache (it
became `[1, 99]`), while the downstream cache is unchanged even though the
downstream dirty region was merged — the opposite of the claim, which says
the mutator patches the downstream cache. -/
theorem C4_mutator_applied_to_upstream_cache :
    (TwoChan.markDirtyU
        (fun _ _ => (fun arr => arr ++ [99], indices [Key.num 0]))
        ⟨indexNone, [1], indexNone, [2]⟩ (indices [Key.num 5])).uCache = [1, 99]
    ∧ (TwoChan.markDirtyU
        (fun _ _ => (fun arr => arr ++ [99], indices [Key.num 0]))
        ⟨indexNone, [1], indexNone, [2]⟩ (indices [Key.num 5])).dCache = [2]
    ∧ (TwoChan.markDirtyU
        (fun _ _ => (fun arr => arr ++ [99], indices [Key.num 0]))
        ⟨indexNone, [1], indexNone, [2]⟩ (indices [Key.num 5])).dDirty
      = indices [Key.num 0]
    ∧ ([1, 99] : List Nat) ≠ [1] ∧ ([2] : List Nat) ≠ [2, 99] := by
  exact ⟨rfl, rfl, rfl, by decide, by decide⟩

/-! ### Claim C9 -/

/-- C9, code evaluation at a failing input: `unravelData` replaces a
top-level channel by its data without recursing into that data, so a channel
nested inside another channel's value survives unravelling, contradicting
the claim (and the doc comment of `unravelData`) that no channel remains at
any depth.  Recursion through arrays and objects does work, as the last two
conjuncts show. -/
theorem C9_unravel_keeps_nested_channel :
    unravelData (JsVal.chan (JsVal.arr [JsVal.chan (JsVal.prim 1)]))
      = JsVal.arr [JsVal.chan (JsVal.prim 1)]
    ∧ containsChannel
        (unravelData (JsVal.chan (JsVal.arr [JsVal.chan (JsVal.prim 1)]))) = true
    ∧ unravelData (JsVal.arr [JsVal.chan (JsVal.prim 1)]) = JsVal.arr [JsVal.prim 1]
    ∧ containsChannel
        (unravelData (JsVal.obj [("a", JsVal.chan (JsVal.prim 2))])) = false := by
  refine ⟨?_, ?_, ?_, ?_⟩ <;>
    simp [unravelData, unravelList, unravelEntries, containsChannel,
      containsChannelList, containsChannelEntries]
